import Mathlib

/-! # CanvasClash game room: a shallow embedding of `src/functions/gameroom.mjs`

The repository implements a shared pixel-canvas contest coordinated by a
per-room Durable Object (`GameRoom` in `src/functions/gameroom.mjs`; the file
`src/worker.js` holds an older, mostly duplicated variant of the same class,
and the unnamed sources are the matchmaking function and the browser client).
This development embeds the room coordinator as pure functions over an
explicit room state:

* connections, messages, ticks and disconnections each become a function
  `RoomState -> RoomState × List Out` (the `Out` list records what was written
  to which WebSocket);
* JavaScript objects used as score maps become association lists in insertion
  order (`Object.entries` iterates string keys in insertion order);
* JavaScript numbers arriving in a `placePixel` payload are modelled as `ℚ`
  (`JSVal.num`), so that non-integer coordinates — which the typeof-plus-range validation of the source accepts — are representable; a payload field
  that is not a number is `JSVal.undef`;
* the runtime exception thrown by `this.canvasState[y][x]` when
  `canvasState[y]` is `undefined` is modelled with `Except Unit`; the
  `try/catch` in the message listener turns it into the
  "Invalid message format." error reply, as in the source;
* `session.lastPlacement` timestamps are `Int` milliseconds (`Date.now()`).

Two deliberate simplifications, both irrelevant to the theorems below and
noted where they matter: writes through a non-integer index (`row[1.5] = c`)
create a non-index own property on the JS array and never touch the 100×100
grid cells, so the model leaves the grid unchanged there (the model does not
keep the ghost property itself); and durable-storage `put`s that no theorem
observes (`saveState`, the `gameEndedDueToEmpty` flag) are not recorded.
-/

namespace CanvasClash

/-! ## Constants (`gameroom.mjs` lines 5-14) -/

def GAME_DURATION_SECONDS : Nat := 5 * 60
def CANVAS_WIDTH : Nat := 100
def CANVAS_HEIGHT : Nat := 100
def MAX_PLAYERS_PER_ROOM : Nat := 8
def MIN_PLAYERS_TO_START : Nat := 2

def PLAYER_COLORS : List String :=
  ["#FF0000", "#00FF00", "#0000FF", "#FFFF00",
   "#FF00FF", "#00FFFF", "#FFA500", "#800080"]

def COOLDOWN_MS : Int := 1000

/-- The "unset" cell color used by `initializeCanvas`. -/
def WHITE : String := "#FFFFFF"

/-! ## Data model -/

/-- `this.canvasState`: a 100×100 array of color strings. -/
abbrev Canvas := List (List String)

/-- `this.scores`: a JS object mapping color → score, kept in insertion
order (association list with unique keys). -/
abbrev Scores := List (String × Nat)

/-- One element of `this.sessions`.  `sid` stands for the identity of the
underlying WebSocket object (JS compares sessions with `!==`); it is issued
from the ghost counter `RoomState.nextSid`. -/
structure Session where
  sid : Nat
  playerId : String
  color : String
  lastPlacement : Int
deriving DecidableEq, Repr

/-- A JavaScript value arriving in a `placePixel` payload field:
a number (`ℚ`), or anything that is not a number. -/
inductive JSVal where
  | num (q : ℚ)
  | undef
deriving DecidableEq, Repr

structure PlacePayload where
  x : JSVal
  y : JSVal
deriving DecidableEq, Repr

/-- A parsed client→coordinator message: `placePixel`, some other
recognized-as-JSON-but-ignored type, or input whose `JSON.parse` throws. -/
inductive ClientMsg where
  | placePixel (payload : PlacePayload)
  | other
  | malformed
deriving DecidableEq, Repr

/-- Coordinator→client JSON messages (section 6 of the spec;
`gameroom.mjs` sends exactly these shapes). -/
inductive Msg where
  | assignInfo (roomId playerId color : String)
  | gameState (canvasState : Canvas) (scores : Scores) (timeLeft : Option Nat)
  | scoreUpdate (scores : Scores)
  | timerUpdate (timeLeft : Nat)
  | pixelUpdate (x y : ℚ) (color : String) (scores : Scores)
  | gameOverMsg (winnerColor : Option String) (scores : Scores)
  | errorMsg (message : String)
deriving DecidableEq, Repr

/-- An observable effect on a WebSocket: `ws.send(...)` of a message, or
`ws.close(code, reason)`. -/
inductive Out where
  | send (sid : Nat) (msg : Msg)
  | close (sid : Nat) (code : Nat) (reason : String)
deriving DecidableEq, Repr

/-- The in-memory fields of the `GameRoom` object.  `timerOn` mirrors
`this.timerInterval !== null`; `nextSid` is a ghost counter issuing fresh
WebSocket identities. -/
structure RoomState where
  roomId : String
  sessions : List Session
  canvasState : Canvas
  scores : Scores
  timeLeft : Nat
  gameStarted : Bool
  gameOver : Bool
  timerOn : Bool
  nextSid : Nat
deriving Repr

/-- The per-room durable storage keys read by `loadState`. -/
structure Storage where
  canvasState : Option Canvas
  scores : Option Scores
  timeLeft : Option Nat
  gameStarted : Option Bool
  gameOver : Option Bool
deriving Repr

/-! ## Small JS helpers -/

/-- JS truthiness of a possibly-absent number (`undefined` and `0` are
falsy). -/
def truthy : Option Nat → Bool
  | none => false
  | some n => !(n == 0)

/-- `obj[k] = v` on a JS object: overwrite in place if the key exists
(keeping its position), otherwise append a new key. -/
def scoreSet (scores : Scores) (k : String) (v : Nat) : Scores :=
  if scores.any (fun p => p.1 == k) then
    scores.map (fun p => if p.1 == k then (k, v) else p)
  else
    scores ++ [(k, v)]

/-- Reading a JS array at a numeric index: only a non-negative integer
denotes an actual element slot.  (In-range is checked by the caller.) -/
def toIdx (q : ℚ) : Option Nat :=
  if q.den = 1 ∧ 0 ≤ q.num then some q.num.toNat else none

/-- Cell `(y, x)` of the canvas (row `y`, column `x`), with a dummy default
off the 100×100 shape. -/
def cellAt (c : Canvas) (y x : Nat) : String :=
  (c.getD y []).getD x ""

/-- The canvas has the shape `initializeCanvas` produces and `saveState`
round-trips: 100 rows of 100 cells. -/
def canvasOK (c : Canvas) : Prop :=
  c.length = CANVAS_HEIGHT ∧ ∀ row ∈ c, row.length = CANVAS_WIDTH

instance : DecidablePred canvasOK := fun c => by
  unfold canvasOK; infer_instance

/-! ## `initializeCanvas` (lines 54-64) -/

/-- `initializeCanvas()`: a `CANVAS_HEIGHT × CANVAS_WIDTH` grid of
`"#FFFFFF"`. -/
def initializeCanvas : Canvas :=
  List.replicate CANVAS_HEIGHT (List.replicate CANVAS_WIDTH WHITE)

/-! ## `loadState` (lines 38-52) -/

/-- `loadState()`: read each key with its JS default (`|| / ??`), leave the
transient session registry empty, and restart the timer if the game was in
progress (`gameStarted && !gameOver && timeLeft > 0 && !timerInterval`;
`timerInterval` is `null` right after construction). -/
def loadState (roomId : String) (storage : Storage) : RoomState :=
  let canvas := storage.canvasState.getD initializeCanvas
  let scores := storage.scores.getD []
  let timeLeft := storage.timeLeft.getD GAME_DURATION_SECONDS
  let started := storage.gameStarted.getD false
  let over := storage.gameOver.getD false
  { roomId := roomId
    sessions := []
    canvasState := canvas
    scores := scores
    timeLeft := timeLeft
    gameStarted := started
    gameOver := over
    timerOn := started && !over && decide (0 < timeLeft)
    nextSid := 0 }

/-! ## `broadcast` (lines 272-282) and `removeSession` (lines 175-177) -/

/-- `removeSession`: `this.sessions = this.sessions.filter(s => s !== x)`. -/
def removeSession (sessions : List Session) (x : Session) : List Session :=
  sessions.filter (fun s => !(s.sid == x.sid))

/-- The `forEach` loop of `broadcast`: `rem` is the snapshot array being
iterated, `cur` is the live `this.sessions` registry.  A send whose socket
throws (`fails s.sid = true`) is caught and answered by `removeSession`;
every other session receives the message. -/
def broadcastLoop (m : Msg) (fails : Nat → Bool) :
    List Session → List Session → List Session × List Out
  | [], cur => (cur, [])
  | s :: rem, cur =>
    if fails s.sid then
      broadcastLoop m fails rem (removeSession cur s)
    else
      let r := broadcastLoop m fails rem cur
      (r.1, Out.send s.sid m :: r.2)

/-- `broadcast(message)`: serialize once and `forEach` over the current
registry. -/
def broadcast (m : Msg) (fails : Nat → Bool) (sessions : List Session) :
    List Session × List Out :=
  broadcastLoop m fails sessions sessions

/-! ## `assignColor` (lines 96-104) -/

/-- `assignColor()`: first palette color unused by a connected session;
`fallback` stands for the random `#xxxxxx` string synthesized when every
palette color is taken. -/
def assignColor (sessions : List Session) (fallback : String) : String :=
  let used := sessions.map (fun s => s.color)
  ((PLAYER_COLORS.find? (fun c => !used.contains c)).getD fallback)

/-! ## `endGame` (lines 216-240) -/

/-- The winner-determination loop of `endGame`, folding over
`Object.entries(this.scores)` in insertion order with accumulator
`(winnerColor, highScore, isDraw)`. -/
def winnerLoop : List (String × Nat) → Option String × Int × Bool →
    Option String × Int × Bool
  | [], acc => acc
  | (c, s) :: rem, (w, h, d) =>
    if h < (s : Int) then winnerLoop rem (some c, (s : Int), false)
    else if (s : Int) = h then winnerLoop rem (w, h, true)
    else winnerLoop rem (w, h, d)

/-- `finalWinner` as computed by `endGame`: run the loop from
`(null, -1, false)`; a draw yields `null`. -/
def computeWinner (scores : Scores) : Option String :=
  let r := winnerLoop scores (none, -1, false)
  if r.2.2 then none else r.1

/-- `endGame()`: stop the timer, flip the lifecycle flags, determine the
winner and broadcast it (the storage `put`s are not observed here). -/
def endGameOp (st : RoomState) (fails : Nat → Bool) : RoomState × List Out :=
  let st1 := { st with timerOn := false, gameOver := true, gameStarted := false }
  let w := computeWinner st.scores
  let br := broadcast (Msg.gameOverMsg w st.scores) fails st1.sessions
  ({ st1 with sessions := br.1 }, br.2)

/-! ## the timer tick (lines 189-203) -/

/-- One firing of the `setInterval` callback: decrement and broadcast while
time remains, else end the game.  (The periodic `saveState` is not
observed.) -/
def tickOp (st : RoomState) (fails : Nat → Bool) : RoomState × List Out :=
  if 0 < st.timeLeft then
    let st1 := { st with timeLeft := st.timeLeft - 1 }
    let br := broadcast (Msg.timerUpdate st1.timeLeft) fails st1.sessions
    ({ st1 with sessions := br.1 }, br.2)
  else
    endGameOp st fails

/-! ## `handlePlacePixel` (lines 242-270) -/

/-- `handlePlacePixel(session, payload)`.  The `Except.error` case is the
`TypeError` thrown by `this.canvasState[y][x]` when `canvasState[y]` is
`undefined` (non-integer `y`, or a missing row); it propagates to the
the catch in the message listener.  A non-integer `x` inside `[0,100)` passes the
`typeof`/range validation: the cell read yields `undefined` (here `none`),
the write creates a non-index property that no grid cell ever sees, and the
score bookkeeping still runs. -/
def handlePlacePixelE (st : RoomState) (sess : Session) (payload : PlacePayload)
    (now : Int) (fails : Nat → Bool) : Except Unit (RoomState × List Out) :=
  match payload.x, payload.y with
  | JSVal.num qx, JSVal.num qy =>
    if qx < 0 ∨ (CANVAS_WIDTH : ℚ) ≤ qx ∨ qy < 0 ∨ (CANVAS_HEIGHT : ℚ) ≤ qy then
      Except.ok (st, [Out.send sess.sid (Msg.errorMsg "Invalid coordinates.")])
    else if now - sess.lastPlacement < COOLDOWN_MS then
      Except.ok (st, [])
    else
      match toIdx qy with
      | none => Except.error ()
      | some ny =>
        match st.canvasState[ny]? with
        | none => Except.error ()
        | some row =>
          let oldColor : Option String := (toIdx qx).bind (fun nx => row[nx]?)
          if oldColor = some sess.color then
            Except.ok (st, [])
          else
            let canvas2 : Canvas :=
              match toIdx qx with
              | some nx => st.canvasState.set ny (row.set nx sess.color)
              | none => st.canvasState
            let sessions2 := st.sessions.map
              (fun s => if s.sid == sess.sid then { s with lastPlacement := now } else s)
            let scores1 :=
              match oldColor with
              | some oc =>
                if oc ≠ WHITE ∧ truthy (List.lookup oc st.scores) then
                  scoreSet st.scores oc ((List.lookup oc st.scores).getD 0 - 1)
                else st.scores
              | none => st.scores
            let scores2 :=
              scoreSet scores1 sess.color ((List.lookup sess.color scores1).getD 0 + 1)
            let st2 := { st with canvasState := canvas2, sessions := sessions2,
                                 scores := scores2 }
            let br := broadcast (Msg.pixelUpdate qx qy sess.color scores2) fails st2.sessions
            Except.ok ({ st2 with sessions := br.1 }, br.2)
  | _, _ =>
    Except.ok (st, [Out.send sess.sid (Msg.errorMsg "Invalid coordinates.")])

/-! ## the per-session message listener (lines 148-160) -/

/-- The message event listener body: parse, ignore
unrecognized types, silently drop `placePixel` unless the game is running,
and catch every exception with the "Invalid message format." reply.
`sess` is the session object captured by the closure of the listener. -/
def onMessage (st : RoomState) (sess : Session) (m : ClientMsg)
    (now : Int) (fails : Nat → Bool) : RoomState × List Out :=
  match m with
  | ClientMsg.malformed =>
    (st, [Out.send sess.sid (Msg.errorMsg "Invalid message format.")])
  | ClientMsg.other => (st, [])
  | ClientMsg.placePixel payload =>
    if !st.gameStarted || st.gameOver then (st, [])
    else
      match handlePlacePixelE st sess payload now fails with
      | Except.ok r => r
      | Except.error _ =>
        (st, [Out.send sess.sid (Msg.errorMsg "Invalid message format.")])

/-! ## `startGame` (lines 179-187) and admission (`fetch` + `handleSession`,
lines 76-146) -/

/-- `startGame()` as called from `handleSession` (the `gameStarted` guard is
already known false there): set the flags, reset the clock, start the timer
and broadcast it. -/
def startGameOp (st : RoomState) (fails : Nat → Bool) : RoomState × List Out :=
  let st1 := { st with gameStarted := true, timeLeft := GAME_DURATION_SECONDS,
                       timerOn := true }
  let br := broadcast (Msg.timerUpdate st1.timeLeft) fails st1.sessions
  ({ st1 with sessions := br.1 }, br.2)

/-- `fetch` + `handleSession(ws, playerId, color)` for one incoming
connection: assign a color, reject on capacity or on an ended game,
otherwise register the session, initialize its score if falsy, send the
assignment and the full snapshot to the new socket, broadcast the score
table, and start the game when the minimum player count is reached.
`fb` is the random fallback color of `assignColor`. -/
def connectOp (st : RoomState) (playerId fb : String) (fails : Nat → Bool) :
    RoomState × List Out :=
  let sid := st.nextSid
  let color := assignColor st.sessions fb
  let st0 := { st with nextSid := sid + 1 }
  if MAX_PLAYERS_PER_ROOM ≤ st.sessions.length then
    (st0, [Out.send sid (Msg.errorMsg "Game room is full."),
           Out.close sid 1008 "Room full"])
  else if st.gameOver then
    (st0, [Out.send sid (Msg.errorMsg "Game has already ended."),
           Out.close sid 1000 "Game ended"])
  else
    let sess : Session := { sid := sid, playerId := playerId, color := color,
                            lastPlacement := 0 }
    let sessions1 := st.sessions ++ [sess]
    let scores1 :=
      if truthy (List.lookup color st.scores) then st.scores
      else scoreSet st.scores color 0
    let outs1 := [Out.send sid (Msg.assignInfo st.roomId playerId color),
                  Out.send sid (Msg.gameState st.canvasState scores1
                    (if st.gameStarted then some st.timeLeft else none))]
    let st1 := { st0 with sessions := sessions1, scores := scores1 }
    let br := broadcast (Msg.scoreUpdate scores1) fails st1.sessions
    let st2 := { st1 with sessions := br.1 }
    if !st.gameStarted && decide (MIN_PLAYERS_TO_START ≤ st2.sessions.length) then
      let r := startGameOp st2 fails
      (r.1, outs1 ++ br.2 ++ r.2)
    else
      (st2, outs1 ++ br.2)

/-! ## disconnection (`closeOrErrorHandler`, lines 162-172) -/

/-- The `close`/`error` listener: remove the session; if the room emptied
while the game was running, stop the timer (the `gameEndedDueToEmpty`
storage flag is not observed). -/
def disconnectOp (st : RoomState) (sess : Session) : RoomState :=
  let sessions1 := removeSession st.sessions sess
  let st1 := { st with sessions := sessions1 }
  if sessions1.length = 0 && st.gameStarted then
    { st1 with timerOn := false }
  else st1

/-! ## Reachability

One atomic serialized step of the coordinator: an admission, a message
event from a connected session, a timer firing, or a disconnection.
`Reachable` closes the entry points under these steps starting from any
activation (`loadState` of whatever the store holds; a fresh room is
`loadState` of an empty store). -/

inductive Step : RoomState → RoomState → Prop where
  | connect (st : RoomState) (playerId fb : String) (fails : Nat → Bool) :
      Step st (connectOp st playerId fb fails).1
  | message (st : RoomState) (sess : Session) (m : ClientMsg) (now : Int)
      (fails : Nat → Bool) (hmem : sess ∈ st.sessions) :
      Step st (onMessage st sess m now fails).1
  | tick (st : RoomState) (fails : Nat → Bool) (hon : st.timerOn = true) :
      Step st (tickOp st fails).1
  | disconnect (st : RoomState) (sess : Session) (hmem : sess ∈ st.sessions) :
      Step st (disconnectOp st sess)

inductive Reachable : RoomState → Prop where
  | load (roomId : String) (storage : Storage) : Reachable (loadState roomId storage)
  | step {st st' : RoomState} (h : Reachable st) (hs : Step st st') : Reachable st'

/-! ## Accounting quantities (spec section 8) -/

/-- Sum of all values of the score table. -/
def scoreSum (scores : Scores) : Nat :=
  (scores.map (fun p => p.2)).sum

/-- Number of unset (white) cells of the grid. -/
def unsetCount (c : Canvas) : Nat :=
  (c.map (fun row => row.count WHITE)).sum

/-- Largest value of the score table (0 when empty). -/
def maxScore : Scores → Nat
  | [] => 0
  | p :: rest => max p.2 (maxScore rest)

/-! ## Concrete states used by the counterexamples and witnesses.

`stTwo` is the room after a fresh activation and two admissions: the game is
running, the canvas is all white, and the two players hold the first two
palette colors. -/

def noFail : Nat → Bool := fun _ => false

def emptyStorage : Storage := ⟨none, none, none, none, none⟩

def stFresh : RoomState := loadState "default-room" emptyStorage

def stOne : RoomState := (connectOp stFresh "p1" "#123456" noFail).1

def stTwo : RoomState := (connectOp stOne "p2" "#123456" noFail).1

def sessRed : Session := ⟨0, "p1", "#FF0000", 0⟩

/-- The rational one half, written as an explicit reduced fraction (the
field-division form of the literal does not evaluate inside the kernel). -/
def oneHalf : ℚ := ⟨1, 2, by decide, Nat.coprime_one_left 2⟩

/-- A `placePixel` payload with a non-integer (but in-range, number-typed)
x-coordinate: {x: 0.5, y: 0}. -/
def badPayload : PlacePayload := ⟨JSVal.num oneHalf, JSVal.num 0⟩

/-- The room after the running two-player room processes
`placePixel {x: 0.5, y: 0}` from the red session. -/
def stBroken : RoomState :=
  (onMessage stTwo sessRed (ClientMsg.placePixel badPayload) 5000 noFail).1

/-- The room after the running two-player room processes a well-formed
`placePixel {x: 3, y: 4}` from the red session. -/
def stPlaced : RoomState :=
  (onMessage stTwo sessRed
    (ClientMsg.placePixel ⟨JSVal.num 3, JSVal.num 4⟩) 5000 noFail).1

/-- A persisted snapshot of a running game with 120 seconds left. -/
def resumeStorage : Storage := ⟨none, none, some 120, some true, some false⟩

/-- The draw example of the spec: scores {red: 5, blue: 5, green: 3}. -/
def exDraw : Scores := [("#FF0000", 5), ("#0000FF", 5), ("#00FF00", 3)]

/-- The single-winner example of the spec: scores {red: 6, blue: 5}. -/
def exWin : Scores := [("#FF0000", 6), ("#0000FF", 5)]

/-- A room whose registry already holds 8 sessions. -/
def stFull8 : RoomState :=
  { roomId := "default-room"
    sessions := (List.range 8).map (fun i => ⟨i, "p", PLAYER_COLORS.getD i "", 0⟩)
    canvasState := initializeCanvas
    scores := []
    timeLeft := 300
    gameStarted := true
    gameOver := false
    timerOn := true
    nextSid := 8 }

/-- Three connected sessions, used to exercise `broadcast`. -/
def ssDemo : List Session :=
  [⟨0, "a", "#FF0000", 0⟩, ⟨1, "b", "#00FF00", 0⟩, ⟨2, "c", "#0000FF", 0⟩]

/-- A socket-failure pattern: exactly the socket with id 1 throws on send. -/
def failOn1 : Nat → Bool := fun n => n == 1

/-! ## General list lemmas -/

theorem count_set_le (l : List String) (n : Nat) (c a : String) (hca : c ≠ a) :
    (l.set n c).count a ≤ l.count a := by
  induction l generalizing n with
  | nil => simp
  | cons h t ih =>
    cases n with
    | zero =>
      simp only [List.set_cons_zero, List.count_cons]
      have hba : (c == a) = false := by simp [hca]
      rw [hba]
      simp only [Bool.false_eq_true, if_false, Nat.add_zero]
      exact Nat.le_add_right _ _
    | succ m =>
      simp only [List.set_cons_succ, List.count_cons]
      exact Nat.add_le_add_right (ih m) _

theorem getD_set_cases {α : Type} (l : List α) (n m : Nat) (a d : α) :
    (m = n ∧ (l.set n a).getD m d = a) ∨ (l.set n a).getD m d = l.getD m d := by
  induction l generalizing n m with
  | nil => right; simp
  | cons h t ih =>
    cases n with
    | zero =>
      cases m with
      | zero => left; exact ⟨rfl, rfl⟩
      | succ k => right; simp [List.getD]
    | succ n1 =>
      cases m with
      | zero => right; simp [List.getD]
      | succ k =>
        rcases ih n1 k with ⟨hk, he⟩ | he
        · left; exact ⟨by omega, he⟩
        · right; simpa using he

theorem getD_set_self {α : Type} (l : List α) (n : Nat) (a d : α)
    (h : n < l.length) : (l.set n a).getD n d = a := by
  simp [List.getD_eq_getElem?_getD, List.getElem?_set_self h]

theorem two_le_countP {α : Type} (p : α → Bool) {l : List α} {a b : α}
    (ha : a ∈ l) (hb : b ∈ l) (hab : a ≠ b)
    (hpa : p a = true) (hpb : p b = true) : 2 ≤ l.countP p := by
  induction l with
  | nil => cases ha
  | cons h t ih =>
    rcases List.mem_cons.mp ha with rfl | hat
    · rcases List.mem_cons.mp hb with rfl | hbt
      · exact absurd rfl hab
      · have h1 : 0 < t.countP p := List.countP_pos_iff.mpr ⟨b, hbt, hpb⟩
        rw [List.countP_cons, if_pos hpa]; omega
    · rcases List.mem_cons.mp hb with rfl | hbt
      · have h1 : 0 < t.countP p := List.countP_pos_iff.mpr ⟨a, hat, hpa⟩
        rw [List.countP_cons, if_pos hpb]; omega
      · have h2 := ih hat hbt
        rw [List.countP_cons]; omega

/-! ## Counting lemmas for the canvas -/

theorem canvasOK_init : canvasOK initializeCanvas := by
  constructor
  · simp [initializeCanvas]
  · intro row hrow
    rw [List.eq_of_mem_replicate hrow]
    simp

theorem unsetCount_init :
    unsetCount initializeCanvas = CANVAS_WIDTH * CANVAS_HEIGHT := by
  simp [unsetCount, initializeCanvas, List.map_replicate, List.sum_replicate,
    CANVAS_WIDTH, CANVAS_HEIGHT]

theorem unsetCount_set_le (cv : Canvas) (ny : Nat) (row2 : List String)
    (h : ∀ row, cv[ny]? = some row → row2.count WHITE ≤ row.count WHITE) :
    unsetCount (cv.set ny row2) ≤ unsetCount cv := by
  induction cv generalizing ny with
  | nil => simp
  | cons r rest ih =>
    cases ny with
    | zero =>
      have := h r (by simp)
      simp only [List.set_cons_zero, unsetCount, List.map_cons, List.sum_cons]
      exact Nat.add_le_add this le_rfl
    | succ m =>
      have hrec := ih m (fun row hrow => h row (by simpa using hrow))
      simp only [List.set_cons_succ, unsetCount, List.map_cons, List.sum_cons]
      exact Nat.add_le_add le_rfl hrec

theorem cellAt_of_getElem (cv : Canvas) (ny nx : Nat) (row : List String)
    (v : String) (h1 : cv[ny]? = some row) (h2 : row[nx]? = some v) :
    cellAt cv ny nx = v := by
  simp only [cellAt, List.getD_eq_getElem?_getD, h1, Option.getD_some, h2]

theorem cellAt_set_cases (cv : Canvas) (ny nx : Nat) (col : String)
    (row : List String) (h1 : cv[ny]? = some row) (y x : Nat) :
    cellAt (cv.set ny (row.set nx col)) y x = col ∨
    cellAt (cv.set ny (row.set nx col)) y x = cellAt cv y x := by
  unfold cellAt
  rcases getD_set_cases cv ny y (row.set nx col) [] with ⟨hy, he⟩ | he
  · rw [he]
    have hrow : cv.getD y [] = row := by
      rw [hy, List.getD_eq_getElem?_getD, h1, Option.getD_some]
    rcases getD_set_cases row nx x col "" with ⟨_, he2⟩ | he2
    · left; exact he2
    · right; rw [he2, hrow]
  · right; rw [he]

/-! ## Broadcast characterization -/

theorem broadcastLoop_outs (m : Msg) (fails : Nat → Bool) (rem cur : List Session) :
    (broadcastLoop m fails rem cur).2 =
      (rem.filter (fun s => !fails s.sid)).map (fun s => Out.send s.sid m) := by
  induction rem generalizing cur with
  | nil => simp [broadcastLoop]
  | cons s rem ih =>
    cases hf : fails s.sid with
    | true => simp [broadcastLoop, hf, ih]
    | false => simp [broadcastLoop, hf, ih]

theorem broadcastLoop_registry (m : Msg) (fails : Nat → Bool)
    (rem cur : List Session) :
    (broadcastLoop m fails rem cur).1 =
      cur.filter (fun t => !(fails t.sid && rem.any (fun r => r.sid == t.sid))) := by
  induction rem generalizing cur with
  | nil => simp [broadcastLoop]
  | cons s rem ih =>
    cases hf : fails s.sid with
    | true =>
      simp only [broadcastLoop, hf, if_true]
      rw [ih, removeSession, List.filter_filter]
      apply List.filter_congr
      intro t _
      by_cases hts : t.sid = s.sid
      · have h1 : fails t.sid = true := by rw [hts]; exact hf
        have h2 : (s.sid == t.sid) = true := by simp [hts]
        have h3 : (t.sid == s.sid) = true := by simp [hts]
        simp [h1, h2, h3]
      · have h2 : (s.sid == t.sid) = false := by simp [Ne.symm hts]
        have h3 : (t.sid == s.sid) = false := by simp [hts]
        simp [h2, h3]
    | false =>
      simp only [broadcastLoop, hf, if_false]
      rw [ih]
      apply List.filter_congr
      intro t _
      by_cases hts : t.sid = s.sid
      · have h1 : fails t.sid = false := by rw [hts]; exact hf
        simp [h1]
      · have h2 : (s.sid == t.sid) = false := by simp [Ne.symm hts]
        simp [h2]

theorem broadcast_registry (m : Msg) (fails : Nat → Bool) (ss : List Session) :
    (broadcast m fails ss).1 = ss.filter (fun s => !fails s.sid) := by
  rw [broadcast, broadcastLoop_registry]
  apply List.filter_congr
  intro t ht
  have : ss.any (fun r => r.sid == t.sid) = true :=
    List.any_eq_true.mpr ⟨t, ht, by simp⟩
  simp [this]

theorem broadcast_outs (m : Msg) (fails : Nat → Bool) (ss : List Session) :
    (broadcast m fails ss).2 =
      (ss.filter (fun s => !fails s.sid)).map (fun s => Out.send s.sid m) :=
  broadcastLoop_outs m fails ss ss

theorem broadcast_length_le (m : Msg) (fails : Nat → Bool) (ss : List Session) :
    (broadcast m fails ss).1.length ≤ ss.length := by
  rw [broadcast_registry]; exact List.length_filter_le _ _

theorem broadcast_subset (m : Msg) (fails : Nat → Bool) (ss : List Session) :
    (broadcast m fails ss).1 ⊆ ss := by
  rw [broadcast_registry]
  intro x hx
  exact List.mem_of_mem_filter hx

/-! ## Winner determination: characterizing `winnerLoop` -/

theorem le_maxScore {s : Scores} {p : String × Nat} (hp : p ∈ s) :
    p.2 ≤ maxScore s := by
  induction s with
  | nil => cases hp
  | cons q t ih =>
    rcases List.mem_cons.mp hp with rfl | hpt
    · simp [maxScore]
    · exact le_trans (ih hpt) (by simp [maxScore])

theorem maxScore_le_of {s : Scores} {b : Nat} (h : ∀ p ∈ s, p.2 ≤ b) :
    maxScore s ≤ b := by
  induction s with
  | nil => exact Nat.zero_le b
  | cons q t ih =>
    simp only [maxScore]
    exact max_le (h q (List.mem_cons_self q t))
      (ih (fun p hp => h p (List.mem_cons_of_mem _ hp)))

theorem maxScore_attained {s : Scores} (hne : s ≠ []) :
    ∃ p ∈ s, p.2 = maxScore s := by
  induction s with
  | nil => exact absurd rfl hne
  | cons q t ih =>
    by_cases hle : maxScore t ≤ q.2
    · exact ⟨q, List.mem_cons_self q t, by simp [maxScore, hle]⟩
    · have htne : t ≠ [] := by
        intro he; rw [he] at hle; simp [maxScore] at hle
      obtain ⟨p, hp, hpe⟩ := ih htne
      refine ⟨p, List.mem_cons_of_mem _ hp, ?_⟩
      rw [hpe]
      simp only [maxScore]
      omega

theorem winnerLoop_all_lt : ∀ (l : Scores) (w : Option String) (h : Int) (d : Bool),
    (∀ p ∈ l, (p.2 : Int) < h) → winnerLoop l (w, h, d) = (w, h, d) := by
  intro l
  induction l with
  | nil => intro w h d _; rfl
  | cons q t ih =>
    intro w h d hall
    obtain ⟨c, s⟩ := q
    have hq : (s : Int) < h := hall (c, s) (List.mem_cons_self _ _)
    have h1 : ¬(h < (s : Int)) := by omega
    have h2 : ¬((s : Int) = h) := by omega
    simp only [winnerLoop, if_neg h1, if_neg h2]
    exact ih w h d (fun p hp => hall p (List.mem_cons_of_mem _ hp))

theorem winnerLoop_all_le : ∀ (l : Scores) (w : Option String) (h : Int) (d : Bool),
    (∀ p ∈ l, (p.2 : Int) ≤ h) → (∃ p ∈ l, (p.2 : Int) = h) →
    winnerLoop l (w, h, d) = (w, h, true) := by
  intro l
  induction l with
  | nil =>
    intro w h d _ hex
    obtain ⟨p, hp, _⟩ := hex
    cases hp
  | cons q t ih =>
    intro w h d hall hex
    obtain ⟨c, s⟩ := q
    have hle : (s : Int) ≤ h := hall (c, s) (List.mem_cons_self _ _)
    by_cases heq : (s : Int) = h
    · have h1 : ¬(h < (s : Int)) := by omega
      simp only [winnerLoop, if_neg h1, if_pos heq]
      by_cases hex2 : ∃ p ∈ t, (p.2 : Int) = h
      · exact ih w h true (fun p hp => hall p (List.mem_cons_of_mem _ hp)) hex2
      · push_neg at hex2
        have hlt : ∀ p ∈ t, (p.2 : Int) < h := fun p hp =>
          lt_of_le_of_ne (hall p (List.mem_cons_of_mem _ hp)) (hex2 p hp)
        exact winnerLoop_all_lt t w h true hlt
    · have h1 : ¬(h < (s : Int)) := by omega
      simp only [winnerLoop, if_neg h1, if_neg heq]
      obtain ⟨p, hp, hpe⟩ := hex
      rcases List.mem_cons.mp hp with rfl | hpt
      · exact absurd hpe heq
      · exact ih w h d (fun p hp => hall p (List.mem_cons_of_mem _ hp)) ⟨p, hpt, hpe⟩

/-- When the head value is strictly below the maximum of the tail, the
head neither changes the maximum nor participates in the argmax search. -/
theorem cons_not_max_lift (c : String) (s : Nat) (t : Scores)
    (hlt : s < maxScore t) :
    maxScore ((c, s) :: t) = maxScore t ∧
    ((c, s) :: t).find? (fun p => p.2 == maxScore ((c, s) :: t)) =
      t.find? (fun p => p.2 == maxScore t) ∧
    ((c, s) :: t).countP (fun p => p.2 == maxScore ((c, s) :: t)) =
      t.countP (fun p => p.2 == maxScore t) := by
  have hM : maxScore ((c, s) :: t) = maxScore t := by
    simp only [maxScore]; omega
  have hhead : ((fun (p : String × Nat) => p.2 == maxScore t) (c, s)) = false := by
    simp only [beq_eq_false_iff_ne, ne_eq]
    omega
  refine ⟨hM, ?_, ?_⟩
  · rw [hM, List.find?_cons_of_neg _ (by simp [hhead])]
  · rw [hM, List.countP_cons]
    have hb : (((c, s) : String × Nat).2 == maxScore t) = false := by
      simp only [beq_eq_false_iff_ne, ne_eq]
      omega
    simp [hb]

theorem winnerLoop_spec : ∀ (l : Scores) (w : Option String) (h : Int) (d : Bool),
    (∃ p ∈ l, h < (p.2 : Int)) →
    winnerLoop l (w, h, d) =
      ((l.find? (fun p => p.2 == maxScore l)).map Prod.fst, (maxScore l : Int),
        decide (2 ≤ l.countP (fun p => p.2 == maxScore l))) := by
  intro l
  induction l with
  | nil =>
    intro w h d hex
    obtain ⟨p, hp, _⟩ := hex
    cases hp
  | cons q t ih =>
    intro w h d hex
    obtain ⟨c, s⟩ := q
    rcases lt_trichotomy h (s : Int) with hgt | heq | hlt
    · -- head strictly improves the running maximum
      simp only [winnerLoop, if_pos hgt]
      by_cases hex2 : ∃ p ∈ t, (s : Int) < (p.2 : Int)
      · rw [ih (some c) (s : Int) false hex2]
        obtain ⟨p0, hp0, hp0s⟩ := hex2
        have hsM : s < maxScore t := by
          have h1 : s < p0.2 := by exact_mod_cast hp0s
          have h2 := le_maxScore hp0
          omega
        obtain ⟨hM, hF, hC⟩ := cons_not_max_lift c s t hsM
        rw [hF, hC, hM]
      · push_neg at hex2
        have hallNat : ∀ p ∈ t, p.2 ≤ s := fun p hp => by
          exact_mod_cast hex2 p hp
        have hMle : maxScore t ≤ s := maxScore_le_of hallNat
        have hM : maxScore ((c, s) :: t) = s := by
          simp only [maxScore]; omega
        by_cases hex3 : ∃ p ∈ t, p.2 = s
        · -- a tie with the head: the loop ends with `isDraw = true`
          have hrun := winnerLoop_all_le t (some c) (s : Int) false
            (fun p hp => by exact_mod_cast hallNat p hp)
            (by
              obtain ⟨p, hp, hpe⟩ := hex3
              exact ⟨p, hp, by exact_mod_cast hpe⟩)
          rw [hrun]
          have hcnt : 2 ≤ ((c, s) :: t).countP (fun p => p.2 == s) := by
            rw [List.countP_cons]
            obtain ⟨p, hp, hpe⟩ := hex3
            have h0 : 0 < t.countP (fun (p : String × Nat) => p.2 == s) :=
              List.countP_pos_iff.mpr ⟨p, hp, by simp [hpe]⟩
            have hb : (((c, s) : String × Nat).2 == s) = true := beq_self_eq_true s
            rw [hb, if_pos rfl]
            omega
          have hd := decide_eq_true hcnt
          simp only [hM]
          simp [List.find?_cons, hd]
        · -- the head is the unique maximum
          push_neg at hex3
          have hallLt : ∀ p ∈ t, (p.2 : Int) < (s : Int) := fun p hp => by
            have h1 := hallNat p hp
            have h2 := hex3 p hp
            have : p.2 < s := lt_of_le_of_ne h1 h2
            exact_mod_cast this
          rw [winnerLoop_all_lt t (some c) (s : Int) false hallLt]
          have hcnt : ((c, s) :: t).countP (fun p => p.2 == s) = 1 := by
            rw [List.countP_cons,
              List.countP_eq_zero.mpr (fun p hp => by simp [hex3 p hp])]
            have hb : (((c, s) : String × Nat).2 == s) = true := beq_self_eq_true s
            rw [hb, if_pos rfl]
          simp only [hM]
          simp [List.find?_cons, hcnt]
    · -- head equals the running maximum: sets the draw flag, winner unchanged
      have h1 : ¬(h < (s : Int)) := by omega
      simp only [winnerLoop, if_neg h1, if_pos heq.symm]
      obtain ⟨p, hp, hph⟩ := hex
      have hpt : p ∈ t := by
        rcases List.mem_cons.mp hp with rfl | hpt
        · exfalso; simp only at hph; omega
        · exact hpt
      have hex2 : ∃ p ∈ t, h < (p.2 : Int) := ⟨p, hpt, hph⟩
      rw [ih w h true hex2]
      have hsM : s < maxScore t := by
        have h2 := le_maxScore hpt
        have h3 : h < (p.2 : Int) := hph
        omega
      obtain ⟨hM, hF, hC⟩ := cons_not_max_lift c s t hsM
      rw [hF, hC, hM]
    · -- head strictly below the running maximum: no effect at all
      have h1 : ¬(h < (s : Int)) := by omega
      have h2 : ¬((s : Int) = h) := by omega
      simp only [winnerLoop, if_neg h1, if_neg h2]
      obtain ⟨p, hp, hph⟩ := hex
      have hpt : p ∈ t := by
        rcases List.mem_cons.mp hp with rfl | hpt
        · exfalso; simp only at hph; omega
        · exact hpt
      have hex2 : ∃ p ∈ t, h < (p.2 : Int) := ⟨p, hpt, hph⟩
      rw [ih w h d hex2]
      have hsM : s < maxScore t := by
        have h3 := le_maxScore hpt
        omega
      obtain ⟨hM, hF, hC⟩ := cons_not_max_lift c s t hsM
      rw [hF, hC, hM]

theorem computeWinner_eq (s : Scores) (hne : s ≠ []) :
    computeWinner s =
      if 2 ≤ s.countP (fun p => p.2 == maxScore s) then none
      else (s.find? (fun p => p.2 == maxScore s)).map Prod.fst := by
  have hex : ∃ p ∈ s, (-1 : Int) < (p.2 : Int) := by
    cases s with
    | nil => exact absurd rfl hne
    | cons q t => exact ⟨q, List.mem_cons_self q t, by omega⟩
  unfold computeWinner
  rw [winnerLoop_spec s none (-1) false hex]
  by_cases hc : 2 ≤ s.countP (fun p => p.2 == maxScore s)
  · simp [hc]
  · simp [hc]

/-! ## Structural facts about each operation -/

/-- All palette colors differ from the unset color. -/
theorem palette_ne_white : ∀ c ∈ PLAYER_COLORS, c ≠ WHITE := by decide

/-- While the room is below the palette size, `assignColor` always finds an
unused palette color (pigeonhole over the 8 distinct palette entries). -/
theorem assignColor_mem (ss : List Session) (fb : String)
    (h : ss.length < MAX_PLAYERS_PER_ROOM) : assignColor ss fb ∈ PLAYER_COLORS := by
  simp only [assignColor]
  cases hfind : PLAYER_COLORS.find?
      (fun c => !(ss.map (fun s => s.color)).contains c) with
  | some c =>
    simpa using List.mem_of_find?_eq_some hfind
  | none =>
    exfalso
    have hall := List.find?_eq_none.mp hfind
    have hsub : PLAYER_COLORS.toFinset ⊆ (ss.map (fun s => s.color)).toFinset := by
      intro c hc
      rw [List.mem_toFinset] at hc
      rw [List.mem_toFinset]
      have hcc := hall c hc
      simp only [Bool.not_eq_true', Bool.not_eq_false] at hcc
      exact List.mem_of_elem_eq_true hcc
    have hcard := Finset.card_le_card hsub
    have h1 : PLAYER_COLORS.toFinset.card = 8 := by decide
    have h2 : (ss.map (fun s => s.color)).toFinset.card ≤ ss.length := by
      calc (ss.map (fun s => s.color)).toFinset.card
          ≤ (ss.map (fun s => s.color)).length := List.toFinset_card_le _
        _ = ss.length := List.length_map _ _
    rw [h1] at hcard
    simp only [MAX_PLAYERS_PER_ROOM] at h
    omega

theorem startGameOp_sessions (st : RoomState) (fails : Nat → Bool) :
    (startGameOp st fails).1.sessions ⊆ st.sessions :=
  broadcast_subset _ fails st.sessions

theorem startGameOp_length (st : RoomState) (fails : Nat → Bool) :
    (startGameOp st fails).1.sessions.length ≤ st.sessions.length :=
  broadcast_length_le _ fails st.sessions

theorem startGameOp_canvas (st : RoomState) (fails : Nat → Bool) :
    (startGameOp st fails).1.canvasState = st.canvasState := rfl

/-- A connection arriving at a full room is turned away exactly as
`handleSession` writes it, and registers nothing. -/
theorem connectOp_full (st : RoomState) (pid fb : String) (fails : Nat → Bool)
    (h : MAX_PLAYERS_PER_ROOM ≤ st.sessions.length) :
    (connectOp st pid fb fails).1.sessions = st.sessions ∧
    (connectOp st pid fb fails).2 =
      [Out.send st.nextSid (Msg.errorMsg "Game room is full."),
       Out.close st.nextSid 1008 "Room full"] := by
  constructor <;> simp [connectOp, h]

theorem connectOp_canvas (st : RoomState) (pid fb : String) (fails : Nat → Bool) :
    (connectOp st pid fb fails).1.canvasState = st.canvasState := by
  simp only [connectOp, startGameOp]
  split_ifs <;> rfl

theorem connectOp_mem (st : RoomState) (pid fb : String) (fails : Nat → Bool) :
    ∀ t ∈ (connectOp st pid fb fails).1.sessions,
      t ∈ st.sessions ∨
      (st.sessions.length < MAX_PLAYERS_PER_ROOM ∧
        t = ⟨st.nextSid, pid, assignColor st.sessions fb, 0⟩) := by
  intro t ht
  by_cases h1 : MAX_PLAYERS_PER_ROOM ≤ st.sessions.length
  · rw [(connectOp_full st pid fb fails h1).1] at ht
    exact Or.inl ht
  · by_cases h2 : st.gameOver = true
    · simp only [connectOp, if_neg h1, if_pos h2] at ht
      exact Or.inl ht
    · simp only [connectOp, if_neg h1, if_neg h2] at ht
      have hfin : t ∈ st.sessions ++
          [⟨st.nextSid, pid, assignColor st.sessions fb, 0⟩] := by
        split_ifs at ht <;>
          try (simp only [startGameOp, broadcast_registry] at ht)
        all_goals
          first
            | exact List.mem_of_mem_filter (List.mem_of_mem_filter ht)
            | exact List.mem_of_mem_filter ht
      rcases List.mem_append.mp hfin with hmem | hmem
      · exact Or.inl hmem
      · exact Or.inr ⟨by omega, by simpa using hmem⟩

theorem connectOp_length (st : RoomState) (pid fb : String) (fails : Nat → Bool) :
    (connectOp st pid fb fails).1.sessions.length ≤ st.sessions.length + 1 := by
  by_cases h1 : MAX_PLAYERS_PER_ROOM ≤ st.sessions.length
  · rw [(connectOp_full st pid fb fails h1).1]; omega
  · by_cases h2 : st.gameOver = true
    · simp only [connectOp, if_neg h1, if_pos h2]
      omega
    · simp only [connectOp, if_neg h1, if_neg h2]
      split_ifs <;>
        first
          | (simp only [startGameOp, broadcast_registry]
             exact le_trans (List.length_filter_le _ _)
               (le_trans (List.length_filter_le _ _) (by simp)))
          | (simp only [broadcast_registry]
             exact le_trans (List.length_filter_le _ _) (by simp))

theorem tickOp_canvas (st : RoomState) (fails : Nat → Bool) :
    (tickOp st fails).1.canvasState = st.canvasState := by
  simp only [tickOp, endGameOp]
  split_ifs <;> rfl

theorem tickOp_sub (st : RoomState) (fails : Nat → Bool) :
    (tickOp st fails).1.sessions ⊆ st.sessions := by
  simp only [tickOp, endGameOp]
  split_ifs
  · exact broadcast_subset _ _ _
  · exact broadcast_subset _ _ _

theorem tickOp_length (st : RoomState) (fails : Nat → Bool) :
    (tickOp st fails).1.sessions.length ≤ st.sessions.length := by
  simp only [tickOp, endGameOp]
  split_ifs
  · exact broadcast_length_le _ _ _
  · exact broadcast_length_le _ _ _

theorem disconnectOp_canvas (st : RoomState) (sess : Session) :
    (disconnectOp st sess).canvasState = st.canvasState := by
  simp only [disconnectOp]
  split_ifs <;> rfl

theorem disconnectOp_sub (st : RoomState) (sess : Session) :
    (disconnectOp st sess).sessions ⊆ st.sessions := by
  simp only [disconnectOp]
  split_ifs
  · intro x hx; exact List.mem_of_mem_filter hx
  · intro x hx; exact List.mem_of_mem_filter hx

theorem disconnectOp_length (st : RoomState) (sess : Session) :
    (disconnectOp st sess).sessions.length ≤ st.sessions.length := by
  simp only [disconnectOp]
  split_ifs
  · exact List.length_filter_le _ _
  · exact List.length_filter_le _ _

/-- Everything a successful `handlePlacePixel` run can do to the room:
session colors are preserved, the registry never grows, and the canvas is
either untouched or one in-range cell is overwritten with the color of the placing
session. -/
theorem handlePlacePixelE_ok_spec (st : RoomState) (sess : Session)
    (payload : PlacePayload) (now : Int) (fails : Nat → Bool)
    (r : RoomState × List Out)
    (h : handlePlacePixelE st sess payload now fails = Except.ok r) :
    (∀ t ∈ r.1.sessions, ∃ s0 ∈ st.sessions, t.color = s0.color) ∧
    r.1.sessions.length ≤ st.sessions.length ∧
    (r.1.canvasState = st.canvasState ∨
      ∃ ny row nx, st.canvasState[ny]? = some row ∧
        r.1.canvasState = st.canvasState.set ny (row.set nx sess.color)) := by
  have htriv : ∀ outs : List Out, r = (st, outs) →
      (∀ t ∈ r.1.sessions, ∃ s0 ∈ st.sessions, t.color = s0.color) ∧
      r.1.sessions.length ≤ st.sessions.length ∧
      (r.1.canvasState = st.canvasState ∨
        ∃ ny row nx, st.canvasState[ny]? = some row ∧
          r.1.canvasState = st.canvasState.set ny (row.set nx sess.color)) := by
    rintro outs rfl
    exact ⟨fun t ht => ⟨t, ht, rfl⟩, le_rfl, Or.inl rfl⟩
  obtain ⟨px, py⟩ := payload
  cases px with
  | undef =>
    cases py <;>
      · simp only [handlePlacePixelE, Except.ok.injEq] at h
        exact htriv _ h.symm
  | num qx =>
    cases py with
    | undef =>
      simp only [handlePlacePixelE, Except.ok.injEq] at h
      exact htriv _ h.symm
    | num qy =>
      simp only [handlePlacePixelE] at h
      split_ifs at h with h1 h2
      · simp only [Except.ok.injEq] at h
        exact htriv _ h.symm
      · simp only [Except.ok.injEq] at h
        exact htriv _ h.symm
      · cases hty : toIdx qy with
        | none =>
          rw [hty] at h
          simp at h
        | some ny =>
          rw [hty] at h
          dsimp only at h
          cases hrow : st.canvasState[ny]? with
          | none =>
            rw [hrow] at h
            simp at h
          | some row =>
            rw [hrow] at h
            dsimp only at h
            split_ifs at h with h3
            · simp only [Except.ok.injEq] at h
              exact htriv _ h.symm
            · simp only [Except.ok.injEq] at h
              subst h
              refine ⟨?_, ?_, ?_⟩
              · simp only [broadcast_registry]
                intro t ht
                have ht2 := List.mem_of_mem_filter ht
                obtain ⟨s0, hs0, hs0e⟩ := List.mem_map.mp ht2
                refine ⟨s0, hs0, ?_⟩
                by_cases hsid : (s0.sid == sess.sid) = true
                · rw [← hs0e, if_pos hsid]
                · rw [← hs0e, if_neg hsid]
              · simp only [broadcast_registry]
                refine le_trans (List.length_filter_le _ _) ?_
                simp
              · cases htx : toIdx qx with
                | none => exact Or.inl rfl
                | some nx => exact Or.inr ⟨ny, row, nx, hrow, rfl⟩

/-- The per-session message listener preserves colors, never grows the
registry, and changes at most one canvas cell, to the color of the sender. -/
theorem onMessage_spec (st : RoomState) (sess : Session) (m : ClientMsg)
    (now : Int) (fails : Nat → Bool) :
    (∀ t ∈ (onMessage st sess m now fails).1.sessions,
      ∃ s0 ∈ st.sessions, t.color = s0.color) ∧
    (onMessage st sess m now fails).1.sessions.length ≤ st.sessions.length ∧
    ((onMessage st sess m now fails).1.canvasState = st.canvasState ∨
      ∃ ny row nx, st.canvasState[ny]? = some row ∧
        (onMessage st sess m now fails).1.canvasState =
          st.canvasState.set ny (row.set nx sess.color)) := by
  have htriv :
      (∀ t ∈ st.sessions, ∃ s0 ∈ st.sessions, t.color = s0.color) ∧
      st.sessions.length ≤ st.sessions.length ∧
      (st.canvasState = st.canvasState ∨
        ∃ ny row nx, st.canvasState[ny]? = some row ∧
          st.canvasState = st.canvasState.set ny (row.set nx sess.color)) :=
    ⟨fun t ht => ⟨t, ht, rfl⟩, le_rfl, Or.inl rfl⟩
  cases m with
  | malformed => exact htriv
  | other => exact htriv
  | placePixel payload =>
    simp only [onMessage]
    split_ifs with h1
    · exact htriv
    · cases hE : handlePlacePixelE st sess payload now fails with
      | error e =>
        try dsimp only
        exact htriv
      | ok r =>
        try dsimp only
        exact handlePlacePixelE_ok_spec st sess payload now fails r hE

/-! ## Reachability invariants -/

/-- Every registered session holds a palette color. -/
def colorsOK (st : RoomState) : Prop :=
  ∀ s ∈ st.sessions, s.color ∈ PLAYER_COLORS

theorem colorsOK_step {st st' : RoomState} (h : Step st st') (hc : colorsOK st) :
    colorsOK st' := by
  cases h with
  | connect pid fb fails =>
    intro t ht
    rcases connectOp_mem st pid fb fails t ht with hmem | ⟨hlt, rfl⟩
    · exact hc t hmem
    · exact assignColor_mem st.sessions fb hlt
  | message sess m now fails hmem =>
    intro t ht
    obtain ⟨s0, hs0, hcol⟩ := (onMessage_spec st sess m now fails).1 t ht
    rw [hcol]
    exact hc s0 hs0
  | tick fails hon =>
    intro t ht
    exact hc t (tickOp_sub st fails ht)
  | disconnect sess hmem =>
    intro t ht
    exact hc t (disconnectOp_sub st sess ht)

theorem reachable_colorsOK {st : RoomState} (h : Reachable st) : colorsOK st := by
  induction h with
  | load roomId storage => intro s hs; cases hs
  | step h hs ih => exact colorsOK_step hs ih

theorem step_length_le {st st' : RoomState} (h : Step st st')
    (h8 : st.sessions.length ≤ MAX_PLAYERS_PER_ROOM) :
    st'.sessions.length ≤ MAX_PLAYERS_PER_ROOM := by
  cases h with
  | connect pid fb fails =>
    by_cases hfull : MAX_PLAYERS_PER_ROOM ≤ st.sessions.length
    · rw [(connectOp_full st pid fb fails hfull).1]; exact h8
    · have := connectOp_length st pid fb fails
      simp only [MAX_PLAYERS_PER_ROOM] at hfull ⊢
      omega
  | message sess m now fails hmem =>
    exact le_trans (onMessage_spec st sess m now fails).2.1 h8
  | tick fails hon => exact le_trans (tickOp_length st fails) h8
  | disconnect sess hmem => exact le_trans (disconnectOp_length st sess) h8

theorem reachable_length {st : RoomState} (h : Reachable st) :
    st.sessions.length ≤ MAX_PLAYERS_PER_ROOM := by
  induction h with
  | load roomId storage => simp [loadState, MAX_PLAYERS_PER_ROOM]
  | step h hs ih => exact step_length_le hs ih

theorem step_canvas {st st' : RoomState} (h : Step st st') :
    st'.canvasState = st.canvasState ∨
    ∃ sess ∈ st.sessions, ∃ ny row nx, st.canvasState[ny]? = some row ∧
      st'.canvasState = st.canvasState.set ny (row.set nx sess.color) := by
  cases h with
  | connect pid fb fails => exact Or.inl (connectOp_canvas st pid fb fails)
  | message sess m now fails hmem =>
    rcases (onMessage_spec st sess m now fails).2.2 with he | ⟨ny, row, nx, h1, h2⟩
    · exact Or.inl he
    · exact Or.inr ⟨sess, hmem, ny, row, nx, h1, h2⟩
  | tick fails hon => exact Or.inl (tickOp_canvas st fails)
  | disconnect sess hmem => exact Or.inl (disconnectOp_canvas st sess)

/-! ## Reductions of `handlePlacePixel` on well-formed input -/

theorem toIdx_natCast (n : Nat) : toIdx (n : ℚ) = some n := by
  simp [toIdx]

theorem canvasOK_row {cv : Canvas} (h : canvasOK cv) {ny : Nat}
    (hny : ny < CANVAS_HEIGHT) :
    ∃ row, cv[ny]? = some row ∧ row.length = CANVAS_WIDTH := by
  obtain ⟨hlen, hrows⟩ := h
  have hlt : ny < cv.length := by rw [hlen]; exact hny
  exact ⟨cv[ny], List.getElem?_eq_getElem hlt,
    hrows _ (List.getElem?_mem (List.getElem?_eq_getElem hlt))⟩

theorem canvasOK_set (cv : Canvas) (ny nx : Nat) (col : String)
    (row : List String) (h : canvasOK cv) (hrow : cv[ny]? = some row) :
    canvasOK (cv.set ny (row.set nx col)) := by
  obtain ⟨hlen, hrows⟩ := h
  constructor
  · rw [List.length_set]; exact hlen
  · intro r hr
    rcases List.mem_or_eq_of_mem_set hr with hmem | rfl
    · exact hrows r hmem
    · rw [List.length_set]
      exact hrows row (List.getElem?_mem hrow)

theorem cellAt_set_self (cv : Canvas) (ny nx : Nat) (col : String)
    (row : List String) (hlt : ny < cv.length) (hx : nx < row.length) :
    cellAt (cv.set ny (row.set nx col)) ny nx = col := by
  unfold cellAt
  rw [getD_set_self cv ny _ [] hlt]
  exact getD_set_self row nx col "" hx

/-- The whole range-validation disjunction is false for natural-number
coordinates inside the grid. -/
theorem validation_passes {nx ny : Nat} (hnx : nx < CANVAS_WIDTH)
    (hny : ny < CANVAS_HEIGHT) :
    ¬(((nx : ℚ)) < 0 ∨ (CANVAS_WIDTH : ℚ) ≤ ((nx : ℚ)) ∨
      ((ny : ℚ)) < 0 ∨ (CANVAS_HEIGHT : ℚ) ≤ ((ny : ℚ))) := by
  push_neg
  refine ⟨by positivity, ?_, by positivity, ?_⟩
  · exact_mod_cast hnx
  · exact_mod_cast hny

/-- A request that survives coordinate validation but is inside the cooldown
window is dropped with no reply, no mutation and no broadcast
(`handlePlacePixel` lines 251-254). -/
theorem place_cooldown_drop (st : RoomState) (sess : Session) (x y : ℚ)
    (now : Int) (fails : Nat → Bool)
    (hx : 0 ≤ x ∧ x < (CANVAS_WIDTH : ℚ)) (hy : 0 ≤ y ∧ y < (CANVAS_HEIGHT : ℚ))
    (hcd : now - sess.lastPlacement < COOLDOWN_MS) :
    handlePlacePixelE st sess ⟨JSVal.num x, JSVal.num y⟩ now fails
      = Except.ok (st, []) := by
  have hnotv : ¬(x < 0 ∨ (CANVAS_WIDTH : ℚ) ≤ x ∨ y < 0 ∨ (CANVAS_HEIGHT : ℚ) ≤ y) := by
    push_neg
    exact ⟨hx.1, hx.2, hy.1, hy.2⟩
  simp only [handlePlacePixelE, if_neg hnotv, if_pos hcd]

/-- An in-range integer placement on a cell that does not already hold the
color held by the session goes through: the cell is overwritten with that
color (the other effects are described by `handlePlacePixelE_ok_spec`). -/
theorem place_mutates (st : RoomState) (sess : Session) (nx ny : Nat)
    (now : Int) (fails : Nat → Bool)
    (hcv : canvasOK st.canvasState)
    (hnx : nx < CANVAS_WIDTH) (hny : ny < CANVAS_HEIGHT)
    (hfresh : ¬(now - sess.lastPlacement < COOLDOWN_MS))
    (hdiff : cellAt st.canvasState ny nx ≠ sess.color) :
    ∃ r, handlePlacePixelE st sess ⟨JSVal.num nx, JSVal.num ny⟩ now fails
        = Except.ok r ∧
      r.1.canvasState =
        st.canvasState.set ny (((st.canvasState.getD ny []).set nx sess.color)) ∧
      cellAt r.1.canvasState ny nx = sess.color ∧
      canvasOK r.1.canvasState := by
  obtain ⟨row, hrow, hrlen⟩ := canvasOK_row hcv hny
  have hx : nx < row.length := by rw [hrlen]; exact hnx
  have hgetrow : st.canvasState.getD ny [] = row := by
    rw [List.getD_eq_getElem?_getD, hrow, Option.getD_some]
  have hcell : row[nx]? = some (cellAt st.canvasState ny nx) := by
    rw [List.getElem?_eq_getElem hx]
    exact congrArg some (cellAt_of_getElem st.canvasState ny nx row _ hrow
      (List.getElem?_eq_getElem hx)).symm
  have hneq : ¬(some (cellAt st.canvasState ny nx) = some sess.color) :=
    fun hc => hdiff (Option.some.inj hc)
  have hvn := validation_passes hnx hny
  have hlt : ny < st.canvasState.length := by rw [hcv.1]; exact hny
  cases hE : handlePlacePixelE st sess ⟨JSVal.num nx, JSVal.num ny⟩ now fails with
  | error e =>
    simp only [handlePlacePixelE, if_neg hvn, if_neg hfresh, toIdx_natCast,
      hrow, Option.bind, hcell, if_neg hneq] at hE
    exact Except.noConfusion hE
  | ok r =>
    have hE2 := hE
    simp only [handlePlacePixelE, if_neg hvn, if_neg hfresh, toIdx_natCast,
      hrow, Option.bind, hcell, if_neg hneq] at hE2
    injection hE2 with h2
    refine ⟨r, rfl, ?_, ?_, ?_⟩
    · rw [← h2]
      try dsimp only
      rw [hgetrow]
    · rw [← h2]
      try dsimp only
      exact cellAt_set_self st.canvasState ny nx sess.color row hlt hx
    · rw [← h2]
      try dsimp only
      exact canvasOK_set st.canvasState ny nx sess.color row hcv hrow

/-! ## The claims -/

/-- C1. The claim states that the score sum plus the count of unset cells equals
10000 in every reachable room state.  The code violates it: in a reachable
running room, a `placePixel` with the number-typed but non-integer
coordinate x = 1/2 passes the `typeof`/range validation, paints no grid
cell (the JS write lands on a non-index array property), yet still
increments the score of the sender — the accounting total becomes 10001. -/
theorem accounting_invariant_violated :
    Reachable stBroken ∧
    scoreSum stBroken.scores + unsetCount stBroken.canvasState = 10001 ∧
    scoreSum stBroken.scores + unsetCount stBroken.canvasState ≠
      CANVAS_WIDTH * CANVAS_HEIGHT := by
  have hreach : Reachable stBroken :=
    Reachable.step (Reachable.step (Reachable.step
      (Reachable.load "default-room" emptyStorage)
      (Step.connect stFresh "p1" "#123456" noFail))
      (Step.connect stOne "p2" "#123456" noFail))
      (Step.message stTwo sessRed (ClientMsg.placePixel badPayload) 5000 noFail
        (by decide))
  have hcv : stBroken.canvasState = initializeCanvas := by rfl
  have hsum : scoreSum stBroken.scores = 1 := by decide
  refine ⟨hreach, ?_, ?_⟩
  · rw [hsum, hcv, unsetCount_init]
    decide
  · rw [hsum, hcv, unsetCount_init]
    decide

/-- C2. When the game ends, `endGame` broadcasts `computeWinner` of the
score table; for any nonempty score table, the winner is `none` exactly
when at least two entries are tied at the maximum score, and a reported
winner `c` is an entry holding the maximum, is the unique entry attaining
it, and every other entry scores strictly less. -/
theorem endGame_winner_spec (s : Scores) (hne : s ≠ []) :
    (∀ (st : RoomState) (fails : Nat → Bool), st.scores = s →
      (endGameOp st fails).2 =
        (st.sessions.filter (fun t => !fails t.sid)).map
          (fun t => Out.send t.sid (Msg.gameOverMsg (computeWinner s) s))) ∧
    (computeWinner s = none ↔ 2 ≤ s.countP (fun p => p.2 == maxScore s)) ∧
    (∀ c, computeWinner s = some c →
      (c, maxScore s) ∈ s ∧
      s.countP (fun p => p.2 == maxScore s) = 1 ∧
      ∀ p ∈ s, p.1 ≠ c → p.2 < maxScore s) := by
  have heq := computeWinner_eq s hne
  refine ⟨?_, ?_, ?_⟩
  · intro st fails hsc
    simp only [endGameOp, broadcast_outs, hsc]
  · constructor
    · intro hnone
      by_contra hcnt
      rw [heq, if_neg hcnt] at hnone
      obtain ⟨p, hp, hpe⟩ := maxScore_attained hne
      have hfind : (s.find? (fun p => p.2 == maxScore s)).isSome :=
        List.find?_isSome.mpr ⟨p, hp, by simp [hpe]⟩
      obtain ⟨q, hq⟩ := Option.isSome_iff_exists.mp hfind
      rw [hq] at hnone
      cases hnone
    · intro hcnt
      rw [heq, if_pos hcnt]
  · intro c hsome
    rw [heq] at hsome
    by_cases hcnt : 2 ≤ s.countP (fun p => p.2 == maxScore s)
    · rw [if_pos hcnt] at hsome; cases hsome
    · rw [if_neg hcnt] at hsome
      obtain ⟨q, hq, hqc⟩ := Option.map_eq_some'.mp hsome
      have hqmem := List.mem_of_find?_eq_some hq
      have hqpred := List.find?_some hq
      have hqval : q.2 = maxScore s := by simpa using hqpred
      have hqe : q = (c, maxScore s) := by
        obtain ⟨q1, q2⟩ := q
        simp only at hqc hqval
        rw [hqc, hqval]
      have h1cnt : 0 < s.countP (fun p => p.2 == maxScore s) :=
        List.countP_pos_iff.mpr ⟨q, hqmem, hqpred⟩
      have hcnt1 : s.countP (fun p => p.2 == maxScore s) = 1 := by omega
      refine ⟨hqe ▸ hqmem, hcnt1, ?_⟩
      intro p hp hpc
      rcases lt_or_eq_of_le (le_maxScore hp) with hlt | hmax
      · exact hlt
      · exfalso
        have hpq : p ≠ q := by
          intro he
          rw [he, hqe] at hpc
          exact hpc rfl
        have h2 := two_le_countP (fun p => p.2 == maxScore s) hp hqmem hpq
          (by simp [hmax]) hqpred
        omega

/-- C2 witness: the draw example yields no winner (via the theorem at a
concrete score table); {red: 6, blue: 5} yields red. -/
theorem endGame_winner_spec_examples :
    (computeWinner exDraw = none ↔
      2 ≤ exDraw.countP (fun p => p.2 == maxScore exDraw)) ∧
    computeWinner exDraw = none ∧
    computeWinner exWin = some "#FF0000" :=
  ⟨(endGame_winner_spec exDraw (by decide)).2.1, by decide, by decide⟩

/-- C3 counterexample. The claim says a `placePixel` received while the
game is not running is answered with an error message.  In
`functions/gameroom.mjs` the listener silently returns instead: in the
reachable one-player room (game not started), a well-formed placement from
the connected session produces no reply at all and no mutation. -/
theorem placePixel_not_running_sends_no_error :
    Reachable stOne ∧ sessRed ∈ stOne.sessions ∧ stOne.gameStarted = false ∧
    onMessage stOne sessRed (ClientMsg.placePixel ⟨JSVal.num 5, JSVal.num 5⟩)
      2000 noFail = (stOne, []) := by
  refine ⟨?_, by decide, rfl, rfl⟩
  exact Reachable.step (Reachable.load "default-room" emptyStorage)
    (Step.connect stFresh "p1" "#123456" noFail)

/-- C3 (amended). A `placePixel` received while the game is not running
(not started, or already over) is silently dropped: the listener returns
without replying, and no canvas, score or session state changes. -/
theorem placePixel_not_running_silent_drop (st : RoomState) (sess : Session)
    (p : PlacePayload) (now : Int) (fails : Nat → Bool)
    (h : st.gameStarted = false ∨ st.gameOver = true) :
    onMessage st sess (ClientMsg.placePixel p) now fails = (st, []) := by
  rcases h with h | h
  · simp [onMessage, h]
  · simp [onMessage, h]

/-- C3 witness. -/
theorem placePixel_not_running_silent_drop_witness :
    onMessage stOne sessRed (ClientMsg.placePixel ⟨JSVal.num 7, JSVal.num 8⟩)
      2500 noFail = (stOne, []) :=
  placePixel_not_running_silent_drop stOne sessRed ⟨JSVal.num 7, JSVal.num 8⟩
    2500 noFail (Or.inl rfl)

/-- C4. The claim says only integer in-range coordinates pass validation,
and everything else draws an error with no mutation.  The code only checks
`typeof` and range: x = 1/2 with y = 0 passes validation in the running
two-player room — no "Invalid coordinates." error is sent (the outputs are
the two pixelUpdate broadcast sends), the red score is incremented from 0
to 1, and the lastPlacement of the session is stamped. -/
theorem fractional_x_passes_validation_and_mutates :
    (onMessage stTwo sessRed (ClientMsg.placePixel badPayload) 5000 noFail).2 =
      [Out.send 0 (Msg.pixelUpdate oneHalf 0 "#FF0000"
          [("#FF0000", 1), ("#00FF00", 0)]),
       Out.send 1 (Msg.pixelUpdate oneHalf 0 "#FF0000"
          [("#FF0000", 1), ("#00FF00", 0)])] ∧
    stTwo.scores = [("#FF0000", 0), ("#00FF00", 0)] ∧
    stBroken.scores = [("#FF0000", 1), ("#00FF00", 0)] ∧
    stBroken.sessions = [⟨0, "p1", "#FF0000", 5000⟩, ⟨1, "p2", "#00FF00", 0⟩] := by
  refine ⟨?_, ?_, ?_, ?_⟩ <;> decide

/-- C5. Two placements by one session less than 1000 ms apart: the first
(valid, on a differently-colored cell, outside its own cooldown) is
applied and stamps `lastPlacement`; the second request — despite in-range
number coordinates — is dropped silently: no reply, no mutation, no
broadcast. -/
theorem cooldown_second_request_dropped (st : RoomState) (sess : Session)
    (nx ny : Nat) (x2 y2 : ℚ) (t1 t2 : Int) (f1 f2 : Nat → Bool)
    (hcv : canvasOK st.canvasState)
    (hnx : nx < CANVAS_WIDTH) (hny : ny < CANVAS_HEIGHT)
    (hfresh : ¬(t1 - sess.lastPlacement < COOLDOWN_MS))
    (hdiff : cellAt st.canvasState ny nx ≠ sess.color)
    (hx2 : 0 ≤ x2 ∧ x2 < (CANVAS_WIDTH : ℚ)) (hy2 : 0 ≤ y2 ∧ y2 < (CANVAS_HEIGHT : ℚ))
    (hgap : t2 - t1 < COOLDOWN_MS) :
    ∃ r, handlePlacePixelE st sess ⟨JSVal.num nx, JSVal.num ny⟩ t1 f1
        = Except.ok r ∧
      cellAt r.1.canvasState ny nx = sess.color ∧
      handlePlacePixelE r.1 { sess with lastPlacement := t1 }
        ⟨JSVal.num x2, JSVal.num y2⟩ t2 f2 = Except.ok (r.1, []) := by
  obtain ⟨r, hrun, _, hcell, _⟩ :=
    place_mutates st sess nx ny t1 f1 hcv hnx hny hfresh hdiff
  refine ⟨r, hrun, hcell, ?_⟩
  exact place_cooldown_drop r.1 { sess with lastPlacement := t1 } x2 y2 t2 f2
    hx2 hy2 (by simpa using hgap)

/-- C5 witness: in the running two-player room, red places (3,4) at
t=5000 and retries (7,9) at t=5500; the second is silently dropped. -/
theorem cooldown_second_request_dropped_witness :
    ∃ r, handlePlacePixelE stTwo sessRed ⟨JSVal.num 3, JSVal.num 4⟩ 5000 noFail
        = Except.ok r ∧
      cellAt r.1.canvasState 4 3 = sessRed.color ∧
      handlePlacePixelE r.1 { sessRed with lastPlacement := 5000 }
        ⟨JSVal.num 7, JSVal.num 9⟩ 5500 noFail = Except.ok (r.1, []) :=
  cooldown_second_request_dropped stTwo sessRed 3 4 7 9 5000 5500 noFail noFail
    (by exact canvasOK_init) (by decide) (by decide) (by decide) (by decide)
    ⟨by norm_num, by norm_num [CANVAS_WIDTH]⟩ ⟨by norm_num, by norm_num [CANVAS_HEIGHT]⟩
    (by decide)

/-- C6. A valid integer placement on a cell that already holds the placing
color of the placing session is a no-op: the state is returned unchanged and nothing is
sent or broadcast, whether the request is inside the cooldown window (the
cooldown check fires first) or not (the no-op check fires). -/
theorem placePixel_same_color_noop (st : RoomState) (sess : Session)
    (nx ny : Nat) (t : Int) (fails : Nat → Bool)
    (hcv : canvasOK st.canvasState)
    (hnx : nx < CANVAS_WIDTH) (hny : ny < CANVAS_HEIGHT)
    (hcell : cellAt st.canvasState ny nx = sess.color) :
    handlePlacePixelE st sess ⟨JSVal.num nx, JSVal.num ny⟩ t fails
      = Except.ok (st, []) := by
  by_cases hcd : t - sess.lastPlacement < COOLDOWN_MS
  · exact place_cooldown_drop st sess _ _ t fails
      ⟨by positivity, by exact_mod_cast hnx⟩
      ⟨by positivity, by exact_mod_cast hny⟩ hcd
  · obtain ⟨row, hrow, hrlen⟩ := canvasOK_row hcv hny
    have hx : nx < row.length := by rw [hrlen]; exact hnx
    have hcell2 : row[nx]? = some sess.color := by
      rw [List.getElem?_eq_getElem hx]
      exact congrArg some ((cellAt_of_getElem st.canvasState ny nx row _ hrow
        (List.getElem?_eq_getElem hx)).symm.trans hcell)
    have hvn := validation_passes hnx hny
    simp only [handlePlacePixelE, if_neg hvn, if_neg hcd, toIdx_natCast, hrow,
      Option.bind, hcell2, if_pos rfl]
    simp

/-- C6 witness: after red paints (3,4), placing red on (3,4) again is a
no-op. -/
theorem placePixel_same_color_noop_witness :
    handlePlacePixelE stPlaced sessRed ⟨JSVal.num 3, JSVal.num 4⟩ 7000 noFail
      = Except.ok (stPlaced, []) :=
  placePixel_same_color_noop stPlaced sessRed 3 4 7000 noFail
    (canvasOK_set initializeCanvas 4 3 "#FF0000" (List.replicate 100 WHITE)
      canvasOK_init rfl)
    (by decide) (by decide) (by decide)

/-- C7. Restoring a snapshot that was saved mid-game (started, not over,
time remaining t > 0) resumes the clock from t: the loaded state carries
timeLeft = t with the timer running, and the next tick counts down to
t - 1 rather than restarting from the full five-minute duration. -/
theorem loadState_resumes_running_clock (roomId : String) (storage : Storage)
    (t : Nat) (h1 : storage.gameStarted = some true)
    (h2 : storage.gameOver = some false) (h3 : storage.timeLeft = some t)
    (ht : 0 < t) :
    (loadState roomId storage).timeLeft = t ∧
    (loadState roomId storage).gameStarted = true ∧
    (loadState roomId storage).gameOver = false ∧
    (loadState roomId storage).timerOn = true ∧
    (tickOp (loadState roomId storage) noFail).1.timeLeft = t - 1 := by
  refine ⟨?_, ?_, ?_, ?_, ?_⟩ <;>
    simp [loadState, tickOp, h1, h2, h3, ht, broadcast, broadcastLoop]

/-- C7 witness: the snapshot {started: true, over: false, remaining: 120}
resumes from 120 (and 120 is not the full duration 300). -/
theorem loadState_resumes_running_clock_witness :
    (loadState "default-room" resumeStorage).timeLeft = 120 ∧
    (loadState "default-room" resumeStorage).gameStarted = true ∧
    (loadState "default-room" resumeStorage).gameOver = false ∧
    (loadState "default-room" resumeStorage).timerOn = true ∧
    (tickOp (loadState "default-room" resumeStorage) noFail).1.timeLeft = 119 ∧
    (120 : Nat) ≠ GAME_DURATION_SECONDS := by
  have h := loadState_resumes_running_clock "default-room" resumeStorage 120
    rfl rfl rfl (by decide)
  exact ⟨h.1, h.2.1, h.2.2.1, h.2.2.2.1, h.2.2.2.2, by decide⟩

/-- C8. In every reachable state at most 8 sessions are registered; a
connection arriving at a full room is answered with the "Game room is
full." error and closed with policy-violation code 1008, and the registry
is left untouched, so admission can never push the count above 8. -/
theorem active_sessions_le_eight :
    (∀ st : RoomState, Reachable st →
      st.sessions.length ≤ MAX_PLAYERS_PER_ROOM) ∧
    (∀ (st : RoomState) (pid fb : String) (fails : Nat → Bool),
      MAX_PLAYERS_PER_ROOM ≤ st.sessions.length →
      (connectOp st pid fb fails).1.sessions = st.sessions ∧
      (connectOp st pid fb fails).2 =
        [Out.send st.nextSid (Msg.errorMsg "Game room is full."),
         Out.close st.nextSid 1008 "Room full"]) :=
  ⟨fun _ h => reachable_length h,
   fun st pid fb fails h => connectOp_full st pid fb fails h⟩

/-- C8 witness: the reachable two-player room is within the cap, and a 9th
connection to a full room is rejected without registration. -/
theorem active_sessions_le_eight_witness :
    stTwo.sessions.length ≤ MAX_PLAYERS_PER_ROOM ∧
    (connectOp stFull8 "p9" "#abcdef" noFail).1.sessions = stFull8.sessions ∧
    (connectOp stFull8 "p9" "#abcdef" noFail).2 =
      [Out.send 8 (Msg.errorMsg "Game room is full."),
       Out.close 8 1008 "Room full"] := by
  have hreach : Reachable stTwo :=
    Reachable.step (Reachable.step
      (Reachable.load "default-room" emptyStorage)
      (Step.connect stFresh "p1" "#123456" noFail))
      (Step.connect stOne "p2" "#123456" noFail)
  have h2 := active_sessions_le_eight.2 stFull8 "p9" "#abcdef" noFail (by decide)
  exact ⟨active_sessions_le_eight.1 stTwo hreach, h2.1, h2.2⟩

/-- C9. For any broadcast over any registry with any set of failing
sockets: exactly the failing sessions are deregistered (every other
session is retained), the message is still delivered to every non-failing
session that was active when the broadcast began, and the only outputs are
deliveries of the broadcast message itself — no error is surfaced to any
client. -/
theorem broadcast_failure_isolation (m : Msg) (fails : Nat → Bool)
    (ss : List Session) :
    (broadcast m fails ss).1 = ss.filter (fun s => !fails s.sid) ∧
    (∀ s ∈ ss, fails s.sid = false →
      Out.send s.sid m ∈ (broadcast m fails ss).2) ∧
    (∀ o ∈ (broadcast m fails ss).2,
      ∃ s ∈ ss, fails s.sid = false ∧ o = Out.send s.sid m) := by
  refine ⟨broadcast_registry m fails ss, ?_, ?_⟩
  · intro s hs hf
    rw [broadcast_outs]
    exact List.mem_map.mpr ⟨s, List.mem_filter.mpr ⟨hs, by simp [hf]⟩, rfl⟩
  · intro o ho
    rw [broadcast_outs] at ho
    obtain ⟨s, hs, rfl⟩ := List.mem_map.mp ho
    have hm := List.mem_filter.mp hs
    exact ⟨s, hm.1, by simpa using hm.2, rfl⟩

/-- C9 witness: over three sessions with socket 1 failing, only session 1
is deregistered and sessions 0 and 2 still receive the message. -/
theorem broadcast_failure_isolation_witness :
    (broadcast (Msg.timerUpdate 7) failOn1 ssDemo).1 =
      ssDemo.filter (fun s => !failOn1 s.sid) ∧
    (broadcast (Msg.timerUpdate 7) failOn1 ssDemo).1 =
      [⟨0, "a", "#FF0000", 0⟩, ⟨2, "c", "#0000FF", 0⟩] ∧
    (broadcast (Msg.timerUpdate 7) failOn1 ssDemo).2 =
      [Out.send 0 (Msg.timerUpdate 7), Out.send 2 (Msg.timerUpdate 7)] :=
  ⟨(broadcast_failure_isolation (Msg.timerUpdate 7) failOn1 ssDemo).1,
   by decide, by decide⟩

/-- C10. Along any single step from a reachable state, a cell that holds a
non-unset color never returns to the unset color — every canvas write is a
palette color of a registered session — and hence the number of unset cells
never increases within an activation. -/
theorem unset_cells_nonincreasing (st st' : RoomState) (hr : Reachable st)
    (hs : Step st st') :
    (∀ y x, cellAt st.canvasState y x ≠ WHITE →
      cellAt st'.canvasState y x ≠ WHITE) ∧
    unsetCount st'.canvasState ≤ unsetCount st.canvasState := by
  have hcolors := reachable_colorsOK hr
  rcases step_canvas hs with he | ⟨sess, hsess, ny, row, nx, hrow, he⟩
  · rw [he]
    exact ⟨fun y x h => h, le_rfl⟩
  · have hcol : sess.color ≠ WHITE := palette_ne_white _ (hcolors sess hsess)
    constructor
    · intro y x hne
      rcases cellAt_set_cases st.canvasState ny nx sess.color row hrow y x
          with h1 | h1
      · rw [he, h1]; exact hcol
      · rw [he, h1]; exact hne
    · rw [he]
      apply unsetCount_set_le
      intro row0 hrow0
      rw [hrow] at hrow0
      injection hrow0 with hr0
      subst hr0
      exact count_set_le row nx sess.color WHITE hcol

/-- C10 witness: the step in which red paints (3,4) in the two-player room
keeps every claimed cell claimed and does not increase the unset count. -/
theorem unset_cells_nonincreasing_witness :
    (∀ y x, cellAt stTwo.canvasState y x ≠ WHITE →
      cellAt stPlaced.canvasState y x ≠ WHITE) ∧
    unsetCount stPlaced.canvasState ≤ unsetCount stTwo.canvasState := by
  have hreach : Reachable stTwo :=
    Reachable.step (Reachable.step
      (Reachable.load "default-room" emptyStorage)
      (Step.connect stFresh "p1" "#123456" noFail))
      (Step.connect stOne "p2" "#123456" noFail)
  exact unset_cells_nonincreasing stTwo stPlaced hreach
    (Step.message stTwo sessRed
      (ClientMsg.placePixel ⟨JSVal.num 3, JSVal.num 4⟩) 5000 noFail (by decide))

end CanvasClash
